import Mathlib

/-!
Verification of `zooManagement.cpp`, a single-file batch pipeline that

1. loads a species → candidate-names catalog from `animalNames.txt`,
2. loads arriving-animal records from `arrivingAnimals.txt`,
3. assigns each record a random name for its species,
4. appends one CSV line per record to `newAnimals.txt`, and
5. echoes the output file back (exit 1 only if that reopen fails).

Shallow embedding choices:
* files are modelled as `Option (List String)` — `none` means the file
  could not be opened (or, for the output file, does not exist yet);
  `getline` splits the file on newlines, so a file is its list of lines;
* `std::map<string, vector<string>>` is modelled as an association list
  kept sorted by key (`mapSet` / `mapPush` / `mapFind`), which reproduces
  `std::map`'s ordered iteration used by the case-insensitive scan;
* `rand()` draws are supplied externally: the i-th arriving animal's
  (potential) draw is `rands i` for an arbitrary `rands : Nat → Nat`,
  so theorems quantified over `rands` hold for every random sequence;
* C++ `double` is modelled as `ℚ`: `stod` becomes an exact decimal
  parser and stream output becomes a model of the default `%g`
  (precision 6) formatting; this is exact for the decimal values the
  program's claims exercise;
* `stoi`/`stod` throwing (no digits to convert) aborts the program, so
  the arrivals loader and the driver return `Option`, `none` meaning
  abnormal termination by an uncaught exception.

Byte positions in `std::string` are modelled as character positions,
which agree on ASCII data (the only data the program documents).
-/

/-- The whitespace stripped by `trim`: exactly space and horizontal tab
(C++ `find_first_not_of(" \t")`). -/
def isSpaceTab (c : Char) : Bool := c = ' ' || c = '\t'

/-- Model of `trim(s)`: remove leading and trailing spaces/tabs; all-blank strings
become empty (zooManagement.cpp lines 32–38). -/
def trim (s : String) : String :=
  String.mk (((s.data.dropWhile isSpaceTab).reverse.dropWhile isSpaceTab).reverse)

/-- One step of the `getline(ss, part, ',')` loop: accumulate characters of
the current field (in reverse) until a comma; a comma that ends the input
produces no further field, matching `getline` failing at end-of-stream. -/
def splitFieldsGo (acc : List Char) : List Char → List String
  | [] => [String.mk acc.reverse]
  | c :: cs =>
    if c = ',' then
      String.mk acc.reverse :: (match cs with
        | [] => []
        | _ :: _ => splitFieldsGo [] cs)
    else splitFieldsGo (c :: acc) cs

/-- Split a string on commas exactly as the repeated
`getline(stringstream, part, ',')` does: `""` gives no fields, a trailing
comma gives no trailing empty field. -/
def splitComma (s : String) : List String :=
  match s.data with
  | [] => []
  | c :: cs => splitFieldsGo [] (c :: cs)

/-- Model of `::tolower` in the C locale on one character: only `A`–`Z` move. -/
def lowerChar (c : Char) : Char :=
  if 'A' ≤ c ∧ c ≤ 'Z' then Char.ofNat (c.toNat + 32) else c

/-- Model of the `std::transform(..., ::tolower)` applied to a whole string. -/
def toLowerAscii (s : String) : String := String.mk (s.data.map lowerChar)

/-- Lexicographic comparison on character lists: the order of
`std::string::operator<` (byte order and code-point order agree on the
ASCII data this program documents). -/
def charListLt : List Char → List Char → Bool
  | [], [] => false
  | [], _ :: _ => true
  | _ :: _, [] => false
  | a :: as, b :: bs => if a < b then true else if b < a then false else charListLt as bs

/-- Model of `std::string` comparison, the comparator of the names `std::map`. -/
def strLt (a b : String) : Bool := charListLt a.data b.data

/-- The catalog type: `std::map<string, vector<string>>` as an
association list kept sorted by `strLt` (the map's comparator). -/
abbrev Catalog := List (String × List String)

/-- Model of `namesMap[k] = v` on a `std::map`: insert or overwrite, keeping keys
sorted (this is where `std::map`'s ordering lives in the model). -/
def mapSet (k : String) (v : List String) : Catalog → Catalog
  | [] => [(k, v)]
  | (k₂, v₂) :: rest =>
    if strLt k k₂ then (k, v) :: (k₂, v₂) :: rest
    else if k = k₂ then (k, v) :: rest
    else (k₂, v₂) :: mapSet k v rest

/-- Model of `namesMap[k].push_back(n)`: `operator[]` default-constructs an empty
vector when the key is absent, then the name is appended. -/
def mapPush (k n : String) : Catalog → Catalog
  | [] => [(k, [n])]
  | (k₂, v₂) :: rest =>
    if strLt k k₂ then (k, [n]) :: (k₂, v₂) :: rest
    else if k = k₂ then (k₂, v₂ ++ [n]) :: rest
    else (k₂, v₂) :: mapPush k n rest

/-- Model of `namesMap.find(k)`: `some` of the stored vector, or `none` past end. -/
def mapFind (k : String) : Catalog → Option (List String)
  | [] => none
  | (k₂, v₂) :: rest => if k = k₂ then some v₂ else mapFind k rest

/-- Whitespace as `istream` extraction and `strtol`/`strtod` skip it:
space, `\t`, `\n`, vertical tab, form feed, `\r`. -/
def isStreamWS (c : Char) : Bool :=
  c = ' ' || c = '\t' || c = '\n' || c = Char.ofNat 11 || c = Char.ofNat 12 || c = Char.ofNat 13

/-- Value of a list of decimal digit characters, most significant first. -/
def digitsToNat (ds : List Char) : Nat :=
  ds.foldl (fun n c => n * 10 + (c.toNat - 48)) 0

/-- Model of `std::stoi`: skip leading whitespace, optional sign, then a digit run;
`none` models the `std::invalid_argument` thrown when no digit is found.
Out-of-range values are not modelled (ℤ is unbounded); no claim needs
them. -/
def stoi? (s : String) : Option Int :=
  let cs := s.data.dropWhile isStreamWS
  let signed : Int × List Char :=
    match cs with
    | '-' :: r => (-1, r)
    | '+' :: r => (1, r)
    | r => (1, r)
  let ds := signed.2.takeWhile Char.isDigit
  if ds.isEmpty then none
  else some (signed.1 * (digitsToNat ds : Int))

/-- Model of `partStream >> ageStr; getline(partStream, species)` on field 0:
the age token is the first whitespace-delimited word, the species is the
rest of the field, trimmed (zooManagement.cpp lines 110–117). -/
def splitAgeSpecies (f : String) : String × String :=
  let cs := f.data.dropWhile isStreamWS
  (String.mk (cs.takeWhile (fun c => !isStreamWS c)),
   trim (String.mk (cs.dropWhile (fun c => !isStreamWS c))))

/-- Exactly `10^k` for an integer exponent, kept in ℚ. -/
def qPow10 (k : Int) : ℚ :=
  if 0 ≤ k then ((10 ^ k.toNat : ℕ) : ℚ) else (((10 : ℚ) ^ (-k).toNat))⁻¹

/-- Exponent part after `e`/`E` in `strtod` input: only consumed when at
least one digit follows the optional sign, else the exponent contributes
nothing (the longest valid prefix ends before the `e`). -/
def expDigits (r : List Char) : Int :=
  let signed : Int × List Char :=
    match r with
    | '-' :: r₂ => (-1, r₂)
    | '+' :: r₂ => (1, r₂)
    | r₂ => (1, r₂)
  let ds := signed.2.takeWhile Char.isDigit
  if ds.isEmpty then 0 else signed.1 * (digitsToNat ds : Int)

/-- Model of `std::stod` on the decimal forms the program's data uses: optional
sign, digit run, optional fraction, optional well-formed exponent; the
value is kept exactly as a rational. `none` models the
`std::invalid_argument` thrown when the mantissa has no digits.
(Hex, infinity and NaN spellings are not modelled; no claim needs them.) -/
def stod? (s : String) : Option ℚ :=
  let cs := s.data.dropWhile isStreamWS
  let signed : ℚ × List Char :=
    match cs with
    | '-' :: r => (-1, r)
    | '+' :: r => (1, r)
    | r => (1, r)
  let ip := signed.2.takeWhile Char.isDigit
  let afterInt := signed.2.dropWhile Char.isDigit
  let fpRest : List Char × List Char :=
    match afterInt with
    | '.' :: r => (r.takeWhile Char.isDigit, r.dropWhile Char.isDigit)
    | r => ([], r)
  let fp := fpRest.1
  if ip.isEmpty && fp.isEmpty then none
  else
    let mant : ℚ := (digitsToNat ip : ℚ) + (digitsToNat fp : ℚ) / ((10 : ℚ) ^ fp.length)
    let exp : Int :=
      match fpRest.2 with
      | 'e' :: r => expDigits r
      | 'E' :: r => expDigits r
      | _ => 0
    some (signed.1 * mant * qPow10 exp)

/-- The `Animal` struct. A default-constructed C++ `std::string` is
empty, so `name` is `""` until the assigner sets it. -/
structure Animal where
  age : Int
  species : String
  birthSeason : String
  color : String
  weight : ℚ
  origin : String
  name : String
deriving DecidableEq

/-- Header test of the catalog loader (zooManagement.cpp line 56): at
least 6 characters and the last 6 are exactly `Names:` or `names:`. -/
def isHeaderLine (line : String) : Bool :=
  line.data.length ≥ 6 &&
    (let suf := String.mk (line.data.drop (line.data.length - 6))
     suf = "Names:" || suf = "names:")

/-- One iteration of the catalog loader's `while(getline(...))` body.
State is `(currentSpecies, namesMap)`. A header resets the current
species' list; any other non-blank line appends its non-empty trimmed
comma fields to the current species' list, provided a non-empty current
species exists (zooManagement.cpp lines 51–70). -/
def loadNamesStep (st : String × Catalog) (rawLine : String) : String × Catalog :=
  let line := trim rawLine
  if line.isEmpty then st
  else if isHeaderLine line then
    let sp := trim (String.mk (line.data.take (line.data.length - 6)))
    (sp, mapSet sp [] st.2)
  else
    (st.1, (splitComma line).foldl
      (fun m rawName =>
        let nm := trim rawName
        if !nm.isEmpty && !st.1.isEmpty then mapPush st.1 nm m else m)
      st.2)

/-- Model of `loadAnimalNames(filename)`: an unopenable file logs one error line
and yields an empty catalog; otherwise the lines are folded through
`loadNamesStep` starting from no current species. Returns the catalog
and the diagnostic (`cerr`) lines. -/
def loadAnimalNames (filename : String) : Option (List String) → Catalog × List String
  | none => ([], ["Error opening file: " ++ filename])
  | some ls => ((ls.foldl loadNamesStep ("", [])).2, [])

/-- Outcome of one arrivals-file line. `crash` models the uncaught
`std::invalid_argument` from `stoi`/`stod`, which aborts the program. -/
inductive LineOut where
  | blank : LineOut
  | invalid : String → LineOut
  | ok : Animal → LineOut
  | crash : LineOut
deriving DecidableEq

/-- One iteration of the arrivals loader's loop body
(zooManagement.cpp lines 91–126): trim the line, skip it if blank,
reject it with a diagnostic if it has fewer than 6 comma fields, else
parse age+species from field 0, weight from field 3, and build the
record (fields beyond the sixth are ignored; `name` stays empty). -/
def processArrivalLine (rawLine : String) : LineOut :=
  let line := trim rawLine
  if line.isEmpty then .blank
  else
    let parts := (splitComma line).map trim
    if parts.length < 6 then .invalid ("Invalid record: " ++ line)
    else
      let ageSp := splitAgeSpecies (parts.getD 0 "")
      match stoi? ageSp.1, stod? (parts.getD 3 "") with
      | some age, some w =>
          .ok { age := age, species := ageSp.2, birthSeason := parts.getD 1 "",
                color := parts.getD 2 "", weight := w,
                origin := parts.getD 4 "" ++ " " ++ parts.getD 5 "", name := "" }
      | _, _ => .crash

/-- The arrivals loader's loop over the file's lines, producing the
record list and the diagnostic lines in file order; `none` if any line
aborts the program. -/
def loadArrivalsGo : List String → Option (List Animal × List String)
  | [] => some ([], [])
  | l :: ls =>
    match processArrivalLine l with
    | .blank => loadArrivalsGo ls
    | .invalid d => (loadArrivalsGo ls).map (fun p => (p.1, d :: p.2))
    | .ok a => (loadArrivalsGo ls).map (fun p => (a :: p.1, p.2))
    | .crash => none

/-- Model of `loadArrivingAnimals(filename)`: an unopenable file logs one error
line and yields an empty list; otherwise the lines are processed in
order (zooManagement.cpp lines 83–129). -/
def loadArrivingAnimals (filename : String) :
    Option (List String) → Option (List Animal × List String)
  | none => some ([], ["Error opening file: " ++ filename])
  | some ls => loadArrivalsGo ls

/-- The case-insensitive fallback scan of `assignName`
(zooManagement.cpp lines 138–147): the first catalog entry, in the
map's iteration order, whose lowercased key equals the lowercased
species. -/
def ciLookupKey (species : String) (namesMap : Catalog) : Option String :=
  (namesMap.find? (fun p => toLowerAscii p.1 = toLowerAscii species)).map (fun p => p.1)

/-- The iterator `it` of `assignName` after the lookup phase
(zooManagement.cpp lines 135–148): the exact lookup's vector, else the
vector found again under the case-insensitive scan's key, else nothing
(`it == namesMap.end()`). -/
def assignFound (species : String) (namesMap : Catalog) : Option (List String) :=
  match mapFind species namesMap with
  | some v => some v
  | none =>
    match ciLookupKey species namesMap with
    | some k => mapFind k namesMap
    | none => none

/-- Model of `assignName(species, namesMap)` with the consumed `rand()` value
supplied as `draw`: a found, non-empty list yields entry `draw % size`,
anything else yields `"Unnamed"` (zooManagement.cpp lines 134–154). -/
def assignName (species : String) (namesMap : Catalog) (draw : Nat) : String :=
  match assignFound species namesMap with
  | some v => if v.isEmpty then "Unnamed" else v.getD (draw % v.length) ""
  | none => "Unnamed"

/-- Fuel-driven upward scan for the decimal exponent: for `1 ≤ q`,
returns `e + ⌊log₁₀ q⌋` once `q` has been divided below 10. -/
def decExpUp : Nat → ℚ → Int → Int
  | 0, _, e => e
  | fuel + 1, q, e => if q < 10 then e else decExpUp fuel (q / 10) (e + 1)

/-- Fuel-driven downward scan for the decimal exponent: for `0 < q`,
returns `e + ⌊log₁₀ q⌋` once `q` has been multiplied up to at least 1. -/
def decExpDown : Nat → ℚ → Int → Int
  | 0, _, e => e
  | fuel + 1, q, e => if 1 ≤ q then e else decExpDown fuel (q * 10) (e - 1)

/-- Computes `⌊log₁₀ q⌋` for a positive rational, by repeated scaling (the fuel
`q.num.natAbs + q.den` bounds the number of decimal digits involved). -/
def decExp (q : ℚ) : Int :=
  if 1 ≤ q then decExpUp (q.num.natAbs + q.den) q 0
  else decExpDown (q.num.natAbs + q.den) q 0

/-- Round to the nearest integer (the coarse half-way convention is
irrelevant here: exactly-representable decimal data never hits a tie). -/
def roundQ (q : ℚ) : Int := ⌊q + 1 / 2⌋

/-- Drop trailing `'0'` characters from a digit list. -/
def stripTrailingZeros (cs : List Char) : List Char :=
  (cs.reverse.dropWhile (fun c => c = '0')).reverse

/-- A non-negative integer in decimal, as `operator<<` prints it. -/
def natToString (n : Nat) : String := String.mk (Nat.toDigits 10 n)

/-- A C++ `int` in decimal, as `operator<<` prints it. -/
def intToString (i : Int) : String :=
  if i < 0 then "-" ++ natToString i.natAbs else natToString i.natAbs

/-- Default `ostream` formatting of a positive finite `double` value:
`%g` with precision 6 — round to 6 significant digits, then fixed
notation when the decimal exponent is in `[-4, 6)` and scientific
notation (two-digit exponent) otherwise, always stripping trailing
fractional zeros. -/
def fmtPosQ (q : ℚ) : String :=
  let e0 : Int := decExp q
  let n0 : Int := roundQ (q * qPow10 (5 - e0))
  let ne : Int × Int := if n0 = 10 ^ 6 then (10 ^ 5, e0 + 1) else (n0, e0)
  let ds : List Char := Nat.toDigits 10 ne.1.toNat
  let e : Int := ne.2
  if -4 ≤ e && e < 6 then
    if 0 ≤ e then
      let ip := ds.take (e.toNat + 1)
      let fp := stripTrailingZeros (ds.drop (e.toNat + 1))
      String.mk ip ++ (if fp.isEmpty then "" else "." ++ String.mk fp)
    else
      "0." ++ String.mk (stripTrailingZeros (List.replicate (-e - 1).toNat '0' ++ ds))
  else
    let m := stripTrailingZeros (ds.drop 1)
    let mant := String.mk (ds.take 1) ++ (if m.isEmpty then "" else "." ++ String.mk m)
    let edig := Nat.toDigits 10 e.natAbs
    mant ++ "e" ++ (if e < 0 then "-" else "+") ++
      String.mk (if edig.length < 2 then '0' :: edig else edig)

/-- Model of `file << animal.weight` under default stream flags. -/
def formatDouble (q : ℚ) : String :=
  if q = 0 then "0" else if q < 0 then "-" ++ fmtPosQ (-q) else fmtPosQ q

/-- The CSV line `updateZooPopulation` writes for one record
(zooManagement.cpp lines 169–175): the seven fields joined by
comma-space, in the fixed order. -/
def formatAnimal (a : Animal) : String :=
  a.name ++ ", " ++ a.species ++ ", " ++ intToString a.age ++ ", " ++
    a.birthSeason ++ ", " ++ a.color ++ ", " ++ formatDouble a.weight ++ ", " ++ a.origin

/-- Model of `updateZooPopulation(filename, animals)` over the output file's
prior contents (`none` = the file does not exist yet): append mode keeps
every old line and adds one line per record, in list order; an
unwritable file logs one error and leaves the contents untouched.
Returns the file's contents afterwards and the diagnostic lines. -/
def updateZooPopulation (filename : String) (oldContents : Option (List String))
    (writable : Bool) (animals : List Animal) : Option (List String) × List String :=
  if writable then
    (some (oldContents.getD [] ++ animals.map formatAnimal), [])
  else
    (oldContents, ["Error opening file for writing: " ++ filename])

/-- The driver's enrichment loop (zooManagement.cpp lines 191–193),
from position `i` of the random stream: each record's name is set from
its species and the stream value at its index. -/
def enrichGo (namesMap : Catalog) (rands : Nat → Nat) : Nat → List Animal → List Animal
  | _, [] => []
  | i, a :: rest =>
    { a with name := assignName a.species namesMap (rands i) } ::
      enrichGo namesMap rands (i + 1) rest

/-- Model of the loop `for (auto &animal : arrivingAnimals) animal.name = assignName(...)`:
every record's name is overwritten by the assigner before writing. -/
def enrichAnimals (animals : List Animal) (namesMap : Catalog) (rands : Nat → Nat) :
    List Animal :=
  enrichGo namesMap rands 0 animals

/-- The world `main` runs against: the three files as the process would
see them (`none` = cannot be opened / does not exist), whether the
output file can be opened for append and reopened for the final
display, and the stream of `rand()` values (indexed by record
position; `srand(time(NULL))` makes it arbitrary, so theorems
quantify over it). -/
structure Env where
  namesFile : Option (List String)
  arrivalsFile : Option (List String)
  outBefore : Option (List String)
  outWritable : Bool
  readBackOk : Bool
  rands : Nat → Nat

/-- Observable outcome of a completed run: the exit status, the output
file's contents afterwards, and the `cerr` lines in emission order. -/
structure RunResult where
  exitCode : Int
  outAfter : Option (List String)
  errors : List String
deriving DecidableEq

/-- The whole `main` (zooManagement.cpp lines 180–214): load the
catalog, load the arrivals (`none` = aborted by an uncaught parse
exception), assign names, append to `newAnimals.txt`, then reopen it
for display — returning 1 if that reopen fails and 0 otherwise. The
console echo itself has no observable effect beyond the exit code and
is not recorded. -/
def mainRun (env : Env) : Option RunResult :=
  let names := loadAnimalNames "animalNames.txt" env.namesFile
  match loadArrivingAnimals "arrivingAnimals.txt" env.arrivalsFile with
  | none => none
  | some arr =>
    let enriched := enrichAnimals arr.1 names.1 env.rands
    let out := updateZooPopulation "newAnimals.txt" env.outBefore env.outWritable enriched
    if env.readBackOk then
      some { exitCode := 0, outAfter := out.1, errors := names.2 ++ arr.2 ++ out.2 }
    else
      some { exitCode := 1, outAfter := out.1,
             errors := names.2 ++ arr.2 ++ out.2 ++ ["Error opening newAnimals file."] }

/-- The output file's contents after a completed run. -/
def runOutAfter (env : Env) : Option (List String) :=
  match mainRun env with
  | some r => r.outAfter
  | none => none

/-! ## The end-to-end scenario's fixed inputs -/

/-- The names file of the spec's E2E scenario. -/
def e2eNamesLines : List String :=
  ["Hyena Names:", "Spot, Scar", "Lion Names:", "Leo, Nala"]

/-- The arrivals file of the spec's E2E scenario. -/
def e2eArrivalLines : List String :=
  ["4 Hyena, born in spring, brown, 45.5, savanna, east"]

/-- The E2E environment: both inputs readable, output writable and
re-readable, arbitrary prior output contents and random stream. -/
def e2eEnv (rands : Nat → Nat) (ob : List String) : Env :=
  { namesFile := some e2eNamesLines, arrivalsFile := some e2eArrivalLines,
    outBefore := some ob, outWritable := true, readBackOk := true, rands := rands }

/-- The record one arrivals line contributes, if any. -/
def lineRecord? (l : String) : Option Animal :=
  match processArrivalLine l with
  | .ok a => some a
  | _ => none

/-- The diagnostic one arrivals line produces, if any. -/
def lineDiag? (l : String) : Option String :=
  match processArrivalLine l with
  | .invalid d => some d
  | _ => none

/-! ## Helper lemmas -/

theorem getD_mem (l : List String) (n : Nat) (dflt : String) (h : n < l.length) :
    l.getD n dflt ∈ l := by
  rw [List.getD_eq_getElem l dflt h]
  exact List.getElem_mem h

theorem assignFound_exact (sp : String) (namesMap : Catalog) (v : List String)
    (h : mapFind sp namesMap = some v) : assignFound sp namesMap = some v := by
  unfold assignFound
  rw [h]

theorem assignName_eq_of_found (sp : String) (namesMap : Catalog) (d : Nat) (v : List String)
    (h : assignFound sp namesMap = some v) :
    assignName sp namesMap d = if v.isEmpty then "Unnamed" else v.getD (d % v.length) "" := by
  unfold assignName
  rw [h]

theorem assignName_eq_of_not_found (sp : String) (namesMap : Catalog) (d : Nat)
    (h : assignFound sp namesMap = none) : assignName sp namesMap d = "Unnamed" := by
  unfold assignName
  rw [h]

theorem assignFound_sound (sp : String) (namesMap : Catalog) (v : List String)
    (h : assignFound sp namesMap = some v) : ∃ k, mapFind k namesMap = some v := by
  unfold assignFound at h
  rcases hf : mapFind sp namesMap with _ | w
  · rw [hf] at h
    rcases hci : ciLookupKey sp namesMap with _ | k
    · rw [hci] at h
      exact absurd h (by simp)
    · rw [hci] at h
      exact ⟨k, h⟩
  · rw [hf] at h
    refine ⟨sp, ?_⟩
    rw [hf]
    exact h

theorem assignName_mem_of_found_ne_nil (sp : String) (namesMap : Catalog) (d : Nat)
    (v : List String) (h : assignFound sp namesMap = some v) (hne : v ≠ []) :
    assignName sp namesMap d ∈ v := by
  rw [assignName_eq_of_found sp namesMap d v h]
  cases v with
  | nil => exact absurd rfl hne
  | cons x xs =>
    simp only [List.isEmpty_cons, Bool.false_eq_true, if_false]
    exact getD_mem (x :: xs) (d % (x :: xs).length) "" (Nat.mod_lt _ (by simp))

theorem assignName_range (sp : String) (namesMap : Catalog) (d : Nat) :
    (∃ k l, mapFind k namesMap = some l ∧ assignName sp namesMap d ∈ l) ∨
      assignName sp namesMap d = "Unnamed" := by
  rcases hfound : assignFound sp namesMap with _ | v
  · exact Or.inr (assignName_eq_of_not_found sp namesMap d hfound)
  · cases v with
    | nil => exact Or.inr (by rw [assignName_eq_of_found sp namesMap d [] hfound]; rfl)
    | cons x xs =>
      obtain ⟨k, hk⟩ := assignFound_sound sp namesMap (x :: xs) hfound
      exact Or.inl ⟨k, x :: xs, hk,
        assignName_mem_of_found_ne_nil sp namesMap d (x :: xs) hfound (by simp)⟩

/-! ## Claims about the name assigner -/

/-- C2, counterexample: in the catalog `{"Hyena" ↦ [], "hyena" ↦ ["Shenzi"]}`
— which contains both `"Hyena"` and `"hyena"` as distinct keys — the
assigner returns `"Unnamed"`, which is not a candidate from the (empty)
`"Hyena"` list, so the claim as stated fails for empty exact-match lists. -/
theorem spec_c2_counterexample :
    mapFind "Hyena" [("Hyena", []), ("hyena", ["Shenzi"])] = some [] ∧
    mapFind "hyena" [("Hyena", []), ("hyena", ["Shenzi"])] = some ["Shenzi"] ∧
    assignName "Hyena" [("Hyena", []), ("hyena", ["Shenzi"])] 0 = "Unnamed" ∧
    assignName "Hyena" [("Hyena", []), ("hyena", ["Shenzi"])] 0 ∉ ([] : List String) := by
  refine ⟨by decide, by decide, by decide, by decide⟩

/-- C2 (amended): for every catalog containing both `"Hyena"` and
`"hyena"` as keys and every draw, `assignName "Hyena"` draws from the
`"Hyena"` list whenever that list is non-empty, returns the fallback
`"Unnamed"` when it is empty, and never returns a string outside the
`"Hyena"` list other than `"Unnamed"` — in particular never a name that
appears only in the `"hyena"` list. -/
theorem spec_c2 (namesMap : Catalog) (d : Nat) (hy hyLower : List String)
    (h1 : mapFind "Hyena" namesMap = some hy)
    (_h2 : mapFind "hyena" namesMap = some hyLower) :
    (hy ≠ [] → assignName "Hyena" namesMap d ∈ hy) ∧
    (hy = [] → assignName "Hyena" namesMap d = "Unnamed") ∧
    (∀ x, x ∉ hy → x ≠ "Unnamed" → assignName "Hyena" namesMap d ≠ x) := by
  have hfound := assignFound_exact "Hyena" namesMap hy h1
  refine ⟨fun hne => assignName_mem_of_found_ne_nil _ _ d hy hfound hne,
          fun he => ?_, fun x hx hxu => ?_⟩
  · subst he
    rw [assignName_eq_of_found _ _ d [] hfound]
    rfl
  · rcases eq_or_ne hy [] with he | hne
    · subst he
      rw [assignName_eq_of_found _ _ d [] hfound]
      intro heq
      exact hxu (by simpa using heq.symm)
    · intro heq
      exact hx (heq ▸ assignName_mem_of_found_ne_nil _ _ d hy hfound hne)

/-- Witness for C2 at the catalog `{"Hyena" ↦ ["Spot"], "hyena" ↦ ["Shenzi"]}`
and draw 0. -/
theorem spec_c2_witness :
    mapFind "Hyena" [("Hyena", ["Spot"]), ("hyena", ["Shenzi"])] = some ["Spot"] ∧
    mapFind "hyena" [("Hyena", ["Spot"]), ("hyena", ["Shenzi"])] = some ["Shenzi"] ∧
    assignName "Hyena" [("Hyena", ["Spot"]), ("hyena", ["Shenzi"])] 0 ∈ (["Spot"] : List String) :=
  ⟨by decide, by decide,
    (spec_c2 [("Hyena", ["Spot"]), ("hyena", ["Shenzi"])] 0 ["Spot"] ["Shenzi"]
      (by decide) (by decide)).1 (by decide)⟩

/-- C3: with catalog `{"Lion" ↦ ["Leo","Nala"]}` and species `"lion"`,
the assigner returns `"Leo"` or `"Nala"` for every value of the random
draw — never `"Unnamed"` — via the case-insensitive fallback scan. -/
theorem spec_c3 (d : Nat) :
    (assignName "lion" [("Lion", ["Leo", "Nala"])] d = "Leo" ∨
     assignName "lion" [("Lion", ["Leo", "Nala"])] d = "Nala") ∧
    assignName "lion" [("Lion", ["Leo", "Nala"])] d ≠ "Unnamed" := by
  have h : assignName "lion" [("Lion", ["Leo", "Nala"])] d
      = List.getD ["Leo", "Nala"] (d % 2) "" := rfl
  rcases Nat.mod_two_eq_zero_or_one d with h2 | h2
  · rw [h, h2]
    exact ⟨Or.inl rfl, by decide⟩
  · rw [h, h2]
    exact ⟨Or.inr rfl, by decide⟩

/-- C4: with an empty catalog the assigner returns exactly `"Unnamed"`,
for every species string and every draw. -/
theorem spec_c4 (species : String) (d : Nat) : assignName species [] d = "Unnamed" := rfl

/-- C10: an exact-match key whose candidate list is empty makes
`assignName` return `"Unnamed"` without consulting the case-insensitive
scan — concretely, `{"Lion" ↦ [], "lion" ↦ ["Leo"]}` with species
`"Lion"` yields `"Unnamed"` for every draw even though the
differently-cased key has candidates. -/
theorem spec_c10 (namesMap : Catalog) (sp : String) (d : Nat)
    (h : mapFind sp namesMap = some []) :
    assignName sp namesMap d = "Unnamed" ∧
    assignName "Lion" [("Lion", []), ("lion", ["Leo"])] d = "Unnamed" := by
  constructor
  · rw [assignName_eq_of_found sp namesMap d [] (assignFound_exact sp namesMap [] h)]
    rfl
  · rfl

/-- Witness for C10 at the catalog `{"Lion" ↦ [], "lion" ↦ ["Leo"]}`. -/
theorem spec_c10_witness :
    mapFind "Lion" [("Lion", []), ("lion", ["Leo"])] = some [] ∧
    assignName "Lion" [("Lion", []), ("lion", ["Leo"])] 0 = "Unnamed" :=
  ⟨by decide, (spec_c10 [("Lion", []), ("lion", ["Leo"])] "Lion" 0 (by decide)).1⟩

/-! ## The end-to-end claim -/

/-- C1: running the full pipeline on the E2E names file
(`Hyena Names:` / `Spot, Scar` / `Lion Names:` / `Leo, Nala`) and the
single arrival line `4 Hyena, born in spring, brown, 45.5, savanna, east`
appends exactly one line to the output file, equal to
`N, Hyena, 4, born in spring, brown, 45.5, savanna east` with `N` either
`Spot` or `Scar`, for every random stream and every prior output
contents. -/
theorem spec_c1 (rands : Nat → Nat) (ob : List String) :
    ∃ l, (l = "Spot, Hyena, 4, born in spring, brown, 45.5, savanna east" ∨
          l = "Scar, Hyena, 4, born in spring, brown, 45.5, savanna east") ∧
      runOutAfter (e2eEnv rands ob) = some (ob ++ [l]) := by
  have h1 : runOutAfter (e2eEnv rands ob)
      = some (ob ++ [formatAnimal (Animal.mk 4 "Hyena" "born in spring" "brown" (91 / 2)
          "savanna east" (List.getD ["Spot", "Scar"] (rands 0 % 2) ""))]) := by
    with_unfolding_all rfl
  rcases Nat.mod_two_eq_zero_or_one (rands 0) with h | h
  · rw [h] at h1
    have h2 : formatAnimal (Animal.mk 4 "Hyena" "born in spring" "brown" (91 / 2)
        "savanna east" (List.getD ["Spot", "Scar"] 0 ""))
        = "Spot, Hyena, 4, born in spring, brown, 45.5, savanna east" := by
      with_unfolding_all decide
    exact ⟨_, Or.inl rfl, by rw [h1, h2]⟩
  · rw [h] at h1
    have h2 : formatAnimal (Animal.mk 4 "Hyena" "born in spring" "brown" (91 / 2)
        "savanna east" (List.getD ["Spot", "Scar"] 1 ""))
        = "Scar, Hyena, 4, born in spring, brown, 45.5, savanna east" := by
      with_unfolding_all decide
    exact ⟨_, Or.inr rfl, by rw [h1, h2]⟩

/-! ## Claims about the arrivals loader -/

theorem loadArrivalsGo_eq (lines : List String)
    (h : ∀ l ∈ lines, processArrivalLine l ≠ .crash) :
    loadArrivalsGo lines = some (lines.filterMap lineRecord?, lines.filterMap lineDiag?) := by
  induction lines with
  | nil => rfl
  | cons l ls ih =>
    have hl : processArrivalLine l ≠ .crash := h l (List.mem_cons_self l ls)
    have hls : ∀ x ∈ ls, processArrivalLine x ≠ .crash :=
      fun x hx => h x (List.mem_cons_of_mem l hx)
    unfold loadArrivalsGo
    rcases hp : processArrivalLine l with _ | d | a | _
    · rw [ih hls]
      simp [List.filterMap_cons, lineRecord?, lineDiag?, hp]
    · rw [ih hls]
      simp [List.filterMap_cons, lineRecord?, lineDiag?, hp]
    · rw [ih hls]
      simp [List.filterMap_cons, lineRecord?, lineDiag?, hp]
    · exact absurd hp hl

theorem processArrivalLine_invalid_iff (l d : String) :
    processArrivalLine l = .invalid d ↔
      (trim l ≠ "" ∧ (splitComma (trim l)).length < 6 ∧ d = "Invalid record: " ++ trim l) := by
  unfold processArrivalLine
  by_cases hb : (trim l).isEmpty
  · simp only [hb, if_true]
    have : trim l = "" := (String.isEmpty_iff (trim l)).mp hb
    simp [this]
  · simp only [hb, Bool.false_eq_true, if_false]
    have hne : trim l ≠ "" := fun hc => hb ((String.isEmpty_iff (trim l)).mpr hc)
    by_cases hlen : ((splitComma (trim l)).map trim).length < 6
    · simp only [hlen, if_true]
      rw [List.length_map] at hlen
      constructor
      · intro hinj
        refine ⟨hne, hlen, ?_⟩
        cases hinj
        rfl
      · intro hr
        rw [hr.2.2]
    · simp only [hlen, if_false]
      rw [List.length_map] at hlen
      constructor
      · intro hmatch
        rcases h0 : stoi? (splitAgeSpecies (((splitComma (trim l)).map trim).getD 0 "")).1 with _ | age
        · rw [h0] at hmatch
          cases hmatch
        · rcases h3 : stod? (((splitComma (trim l)).map trim).getD 3 "") with _ | w
          · rw [h0, h3] at hmatch
            cases hmatch
          · rw [h0, h3] at hmatch
            cases hmatch
      · intro hr
        exact absurd hr.2.1 hlen

theorem processArrivalLine_blank (l : String) (h : trim l = "") :
    processArrivalLine l = .blank := by
  unfold processArrivalLine
  rw [h]
  rfl

theorem processArrivalLine_ok_shape (l : String) (a : Animal)
    (h : processArrivalLine l = .ok a) :
    trim l ≠ "" ∧ 6 ≤ (splitComma (trim l)).length ∧ lineRecord? l = some a := by
  have h2 := h
  unfold processArrivalLine at h2
  by_cases hb : (trim l).isEmpty
  · rw [if_pos hb] at h2
    cases h2
  · rw [if_neg hb] at h2
    by_cases hlen : ((splitComma (trim l)).map trim).length < 6
    · rw [if_pos hlen] at h2
      cases h2
    · refine ⟨fun hc => hb ((String.isEmpty_iff (trim l)).mpr hc), ?_, ?_⟩
      · rw [List.length_map] at hlen
        omega
      · simp [lineRecord?, h]

theorem processArrivalLine_ok_of_parseable (l : String)
    (hne : trim l ≠ "") (hlen : 6 ≤ (splitComma (trim l)).length)
    (hcr : processArrivalLine l ≠ .crash) :
    ∃ a, processArrivalLine l = .ok a := by
  have hb : ¬((trim l).isEmpty = true) := fun hc => hne ((String.isEmpty_iff (trim l)).mp hc)
  have hlen2 : ¬(((splitComma (trim l)).map trim).length < 6) := by
    rw [List.length_map]
    omega
  unfold processArrivalLine at hcr ⊢
  rw [if_neg hb, if_neg hlen2] at hcr ⊢
  dsimp only at hcr ⊢
  rcases h0 : stoi? (splitAgeSpecies (((splitComma (trim l)).map trim).getD 0 "")).1 with _ | age
  · rw [h0] at hcr
    exact absurd rfl hcr
  · rcases h3 : stod? (((splitComma (trim l)).map trim).getD 3 "") with _ | w
    · rw [h0, h3] at hcr
      exact absurd rfl hcr
    · exact ⟨_, rfl⟩

/-- C5: for every arrivals file whose lines never abort the run, the
loader returns exactly one record per line that parses (`lineRecord?`)
and exactly one diagnostic per line that fails the field-count check
(`lineDiag?`), both in file order; a line is rejected as invalid exactly
when it is non-blank and splits into fewer than 6 comma fields, its
diagnostic names the offending (trimmed) line; blank lines are skipped;
and every non-blank line with at least 6 fields whose age and weight
parse contributes a record. -/
theorem spec_c5 (lines : List String)
    (h : ∀ l ∈ lines, processArrivalLine l ≠ .crash) :
    loadArrivingAnimals "arrivingAnimals.txt" (some lines)
      = some (lines.filterMap lineRecord?, lines.filterMap lineDiag?) ∧
    (∀ l d, processArrivalLine l = .invalid d ↔
      (trim l ≠ "" ∧ (splitComma (trim l)).length < 6 ∧ d = "Invalid record: " ++ trim l)) ∧
    (∀ l a, processArrivalLine l = .ok a →
      trim l ≠ "" ∧ 6 ≤ (splitComma (trim l)).length ∧ lineRecord? l = some a) ∧
    (∀ l, trim l = "" → processArrivalLine l = .blank) ∧
    (∀ l, l ∈ lines → trim l ≠ "" → 6 ≤ (splitComma (trim l)).length →
      ∃ a, processArrivalLine l = .ok a) :=
  ⟨loadArrivalsGo_eq lines h, processArrivalLine_invalid_iff,
   processArrivalLine_ok_shape, processArrivalLine_blank,
   fun l hl hne hlen => processArrivalLine_ok_of_parseable l hne hlen (h l hl)⟩

/-- Witness for C5 on a four-line file: one good record, one malformed
line, one empty line, one all-blank line. -/
theorem spec_c5_witness :
    (∀ l ∈ ["4 Hyena, born in spring, brown, 45.5, savanna, east", "bad, line", "", "  "],
      processArrivalLine l ≠ .crash) ∧
    loadArrivingAnimals "arrivingAnimals.txt"
        (some ["4 Hyena, born in spring, brown, 45.5, savanna, east", "bad, line", "", "  "])
      = some ((["4 Hyena, born in spring, brown, 45.5, savanna, east", "bad, line", "", "  "]).filterMap lineRecord?,
              (["4 Hyena, born in spring, brown, 45.5, savanna, east", "bad, line", "", "  "]).filterMap lineDiag?) :=
  ⟨by with_unfolding_all decide,
   (spec_c5 ["4 Hyena, born in spring, brown, 45.5, savanna, east", "bad, line", "", "  "]
     (by with_unfolding_all decide)).1⟩

/-! ## Claims about the report writer and the driver -/

theorem enrichGo_length (namesMap : Catalog) (rands : Nat → Nat) (i : Nat) (l : List Animal) :
    (enrichGo namesMap rands i l).length = l.length := by
  induction l generalizing i with
  | nil => rfl
  | cons a t ih => simp [enrichGo, ih]

/-- C6: the report writer appends — the old contents stay as a prefix and
one line per record follows in list order (also when the file did not
exist) — and therefore two pipeline runs over the same arrivals file
leave the output file's line count after run 2 equal to the
line count after run 1 plus run 2's record count, with run 1's
contents intact as a prefix. -/
theorem spec_c6 :
    (∀ (old : List String) (animals : List Animal),
        updateZooPopulation "newAnimals.txt" (some old) true animals
          = (some (old ++ animals.map formatAnimal), []) ∧
        updateZooPopulation "newAnimals.txt" none true animals
          = (some (animals.map formatAnimal), [])) ∧
    (∀ (names arrivals : Option (List String)) (recs : List Animal) (dgs : List String)
        (ob o₁ o₂ : List String) (r₁ r₂ : Nat → Nat),
        loadArrivingAnimals "arrivingAnimals.txt" arrivals = some (recs, dgs) →
        runOutAfter (Env.mk names arrivals (some ob) true true r₁) = some o₁ →
        runOutAfter (Env.mk names arrivals (some o₁) true true r₂) = some o₂ →
        o₂.length = o₁.length + recs.length ∧ o₂.take o₁.length = o₁) := by
  constructor
  · intro old animals
    exact ⟨rfl, rfl⟩
  · intro names arrivals recs dgs ob o₁ o₂ r₁ r₂ hload h1 h2
    unfold runOutAfter mainRun at h1 h2
    dsimp only at h1 h2
    rw [hload] at h1 h2
    dsimp only [updateZooPopulation, Option.getD, if_true] at h1 h2
    injection h1 with h1
    injection h2 with h2
    subst h1
    subst h2
    refine ⟨?_, ?_⟩
    · rw [List.length_append, List.length_map]
      unfold enrichAnimals
      rw [enrichGo_length]
    · exact List.take_left _ _

/-- Witness for C6: two concrete runs over the same one-record arrivals
file (names file unreadable, so the record is named `Unnamed`). -/
theorem spec_c6_witness :
    loadArrivingAnimals "arrivingAnimals.txt"
        (some ["4 Hyena, born in spring, brown, 45.5, savanna, east"])
      = some ([Animal.mk 4 "Hyena" "born in spring" "brown" (91 / 2) "savanna east" ""], []) ∧
    runOutAfter (Env.mk none (some ["4 Hyena, born in spring, brown, 45.5, savanna, east"])
        (some []) true true (fun _ => 0))
      = some ["Unnamed, Hyena, 4, born in spring, brown, 45.5, savanna east"] ∧
    runOutAfter (Env.mk none (some ["4 Hyena, born in spring, brown, 45.5, savanna, east"])
        (some ["Unnamed, Hyena, 4, born in spring, brown, 45.5, savanna east"]) true true (fun _ => 0))
      = some ["Unnamed, Hyena, 4, born in spring, brown, 45.5, savanna east",
              "Unnamed, Hyena, 4, born in spring, brown, 45.5, savanna east"] ∧
    (["Unnamed, Hyena, 4, born in spring, brown, 45.5, savanna east",
      "Unnamed, Hyena, 4, born in spring, brown, 45.5, savanna east"] : List String).length
      = (["Unnamed, Hyena, 4, born in spring, brown, 45.5, savanna east"] : List String).length
        + ([Animal.mk 4 "Hyena" "born in spring" "brown" (91 / 2) "savanna east" ""] : List Animal).length := by
  have h1 : loadArrivingAnimals "arrivingAnimals.txt"
      (some ["4 Hyena, born in spring, brown, 45.5, savanna, east"])
      = some ([Animal.mk 4 "Hyena" "born in spring" "brown" (91 / 2) "savanna east" ""], []) := by
    with_unfolding_all decide
  have h2 : runOutAfter (Env.mk none (some ["4 Hyena, born in spring, brown, 45.5, savanna, east"])
      (some []) true true (fun _ => 0))
      = some ["Unnamed, Hyena, 4, born in spring, brown, 45.5, savanna east"] := by
    with_unfolding_all decide
  have h3 : runOutAfter (Env.mk none (some ["4 Hyena, born in spring, brown, 45.5, savanna, east"])
      (some ["Unnamed, Hyena, 4, born in spring, brown, 45.5, savanna east"]) true true (fun _ => 0))
      = some ["Unnamed, Hyena, 4, born in spring, brown, 45.5, savanna east",
              "Unnamed, Hyena, 4, born in spring, brown, 45.5, savanna east"] := by
    with_unfolding_all decide
  exact ⟨h1, h2, h3, (spec_c6.2 none _ _ _ _ _ _ _ _ h1 h2 h3).1⟩

/-- C7: a completed run exits 0 exactly when the output file can be
reopened for the final display and 1 otherwise — in particular missing
input files are only logged (their error lines appear on the diagnostic
stream) and never affect the exit status, and a run with an unreadable
arrivals file always completes. -/
theorem spec_c7 :
    (∀ (env : Env) (r : RunResult), mainRun env = some r →
      (r.exitCode = if env.readBackOk then 0 else 1) ∧
      (env.namesFile = none → "Error opening file: animalNames.txt" ∈ r.errors) ∧
      (env.arrivalsFile = none → "Error opening file: arrivingAnimals.txt" ∈ r.errors)) ∧
    (∀ env : Env, env.arrivalsFile = none → (mainRun env).isSome = true) := by
  constructor
  · rintro ⟨nf, af, ob, w, rb, rnd⟩ r h
    unfold mainRun at h
    dsimp only at h ⊢
    rcases ha : loadArrivingAnimals "arrivingAnimals.txt" af with _ | arr
    · rw [ha] at h
      cases h
    · rw [ha] at h
      dsimp only at h
      split at h
      case isTrue hrb =>
        injection h with h
        subst h
        rw [if_pos hrb]
        refine ⟨rfl, fun hnf => ?_, fun haf => ?_⟩
        · subst hnf
          simp [loadAnimalNames, List.mem_append]
        · subst haf
          unfold loadArrivingAnimals at ha
          injection ha with ha
          subst ha
          simp [List.mem_append]
      case isFalse hrb =>
        injection h with h
        subst h
        rw [if_neg hrb]
        refine ⟨rfl, fun hnf => ?_, fun haf => ?_⟩
        · subst hnf
          simp [loadAnimalNames, List.mem_append]
        · subst haf
          unfold loadArrivingAnimals at ha
          injection ha with ha
          subst ha
          simp [List.mem_append]
  · rintro ⟨nf, af, ob, w, rb, rnd⟩ haf
    dsimp only at haf
    subst haf
    unfold mainRun
    dsimp only [loadArrivingAnimals]
    split
    · rfl
    · rfl

/-- Witness for C7: both input files unreadable, output unwritable and
not re-openable — the run still completes, logs every failure, and
exits 1 solely because of the final reopen. -/
theorem spec_c7_witness :
    mainRun (Env.mk none none none false false (fun _ => 0))
      = some (RunResult.mk 1 none
          ["Error opening file: animalNames.txt", "Error opening file: arrivingAnimals.txt",
           "Error opening file for writing: newAnimals.txt", "Error opening newAnimals file."]) ∧
    (RunResult.mk 1 none
          ["Error opening file: animalNames.txt", "Error opening file: arrivingAnimals.txt",
           "Error opening file for writing: newAnimals.txt", "Error opening newAnimals file."]).exitCode = 1 ∧
    "Error opening file: animalNames.txt" ∈ (RunResult.mk 1 none
          ["Error opening file: animalNames.txt", "Error opening file: arrivingAnimals.txt",
           "Error opening file for writing: newAnimals.txt", "Error opening newAnimals file."]).errors ∧
    "Error opening file: arrivingAnimals.txt" ∈ (RunResult.mk 1 none
          ["Error opening file: animalNames.txt", "Error opening file: arrivingAnimals.txt",
           "Error opening file for writing: newAnimals.txt", "Error opening newAnimals file."]).errors := by
  have hm : mainRun (Env.mk none none none false false (fun _ => 0))
      = some (RunResult.mk 1 none
          ["Error opening file: animalNames.txt", "Error opening file: arrivingAnimals.txt",
           "Error opening file for writing: newAnimals.txt", "Error opening newAnimals file."]) := by
    decide
  have hc := spec_c7.1 (Env.mk none none none false false (fun _ => 0)) _ hm
  exact ⟨hm, hc.1, hc.2.1 rfl, hc.2.2 rfl⟩

theorem enrichGo_name (namesMap : Catalog) (rands : Nat → Nat) (l : List Animal) (i : Nat) :
    ∀ a ∈ enrichGo namesMap rands i l, ∃ d, a.name = assignName a.species namesMap d := by
  induction l generalizing i with
  | nil =>
    intro a ha
    cases ha
  | cons b t ih =>
    intro a ha
    rcases List.mem_cons.mp ha with rfl | ha
    · exact ⟨rands i, rfl⟩
    · exact ih (i + 1) a ha

/-- C8: on every completed run with a writable output file, the lines
written are exactly one per enriched record, and every one of those
records had its name set by the assigner — a candidate list entry of the
loaded catalog, or the fallback `"Unnamed"` — before writing. -/
theorem spec_c8 (env : Env) (r : RunResult) (h : mainRun env = some r)
    (hw : env.outWritable = true) :
    ∃ animals : List Animal,
      r.outAfter = some (env.outBefore.getD [] ++ animals.map formatAnimal) ∧
      ∀ a ∈ animals,
        (∃ d, a.name = assignName a.species (loadAnimalNames "animalNames.txt" env.namesFile).1 d) ∧
        ((∃ k l, mapFind k (loadAnimalNames "animalNames.txt" env.namesFile).1 = some l ∧ a.name ∈ l)
          ∨ a.name = "Unnamed") := by
  obtain ⟨nf, af, ob, w, rb, rnd⟩ := env
  dsimp only at hw h ⊢
  subst hw
  unfold mainRun at h
  dsimp only at h
  rcases ha : loadArrivingAnimals "arrivingAnimals.txt" af with _ | arr
  · rw [ha] at h
    cases h
  · rw [ha] at h
    dsimp only [updateZooPopulation, if_true] at h
    refine ⟨enrichAnimals arr.1 (loadAnimalNames "animalNames.txt" nf).1 rnd, ?_, ?_⟩
    · split at h
      · injection h with h
        subst h
        rfl
      · injection h with h
        subst h
        rfl
    · intro a hmem
      obtain ⟨d, hd⟩ := enrichGo_name (loadAnimalNames "animalNames.txt" nf).1 rnd arr.1 0 a hmem
      refine ⟨⟨d, hd⟩, ?_⟩
      rcases assignName_range a.species (loadAnimalNames "animalNames.txt" nf).1 d with ⟨k, l, hk, hin⟩ | hu
      · exact Or.inl ⟨k, l, hk, hd ▸ hin⟩
      · exact Or.inr (hd.trans hu)

/-- Witness for C8 on the E2E environment with the all-zero random
stream. -/
theorem spec_c8_witness :
    mainRun (e2eEnv (fun _ => 0) []) = some (RunResult.mk 0
        (some ["Spot, Hyena, 4, born in spring, brown, 45.5, savanna east"]) []) ∧
    (e2eEnv (fun _ => 0) []).outWritable = true ∧
    ∃ animals : List Animal,
      (RunResult.mk 0 (some ["Spot, Hyena, 4, born in spring, brown, 45.5, savanna east"]) []).outAfter
        = some ((e2eEnv (fun _ => 0) []).outBefore.getD [] ++ animals.map formatAnimal) ∧
      ∀ a ∈ animals,
        (∃ d, a.name = assignName a.species
          (loadAnimalNames "animalNames.txt" (e2eEnv (fun _ => 0) []).namesFile).1 d) ∧
        ((∃ k l, mapFind k (loadAnimalNames "animalNames.txt" (e2eEnv (fun _ => 0) []).namesFile).1
            = some l ∧ a.name ∈ l) ∨ a.name = "Unnamed") := by
  have hm : mainRun (e2eEnv (fun _ => 0) []) = some (RunResult.mk 0
      (some ["Spot, Hyena, 4, born in spring, brown, 45.5, savanna east"]) []) := by
    with_unfolding_all decide
  exact ⟨hm, rfl, spec_c8 (e2eEnv (fun _ => 0) []) _ hm rfl⟩

/-! ## The empty-species header claim -/

theorem loadNamesStepFoldKeeps (fields : List String) (m : Catalog) :
    fields.foldl (fun m₂ rawName =>
      if !(trim rawName).isEmpty && !("" : String).isEmpty then mapPush "" (trim rawName) m₂
      else m₂) m = m := by
  induction fields generalizing m with
  | nil => rfl
  | cons a t ih =>
    rw [List.foldl_cons]
    have hstep : (if !(trim a).isEmpty && !("" : String).isEmpty
        then mapPush "" (trim a) m else m) = m := by
      rw [show (!("" : String).isEmpty) = false from rfl, Bool.and_false]
      rfl
    rw [hstep, ih]

/-- C9: a header line whose trimmed text is exactly `Names:` or `names:`
makes the empty string the current species and inserts it as a catalog
key with an empty list; afterwards every data-line name is discarded by
the non-empty-current-species guard (the catalog is left untouched), so
the `""` key keeps its empty list until a later header with a non-empty
species — shown in general and on a concrete four-line names file. -/
theorem spec_c9 :
    (∀ (st : String × Catalog) (rawLine : String),
        (trim rawLine = "Names:" ∨ trim rawLine = "names:") →
        loadNamesStep st rawLine = ("", mapSet "" [] st.2)) ∧
    (∀ (m : Catalog) (rawLine : String), trim rawLine ≠ "" →
        isHeaderLine (trim rawLine) = false →
        loadNamesStep ("", m) rawLine = ("", m)) ∧
    (loadAnimalNames "animalNames.txt" (some ["Names:", "Alpha, Beta", "Lion Names:", "Leo"])).1
      = [("", []), ("Lion", ["Leo"])] := by
  refine ⟨?_, ?_, by decide⟩
  · rintro st rawLine (h | h)
    · unfold loadNamesStep
      rw [h]
      rfl
    · unfold loadNamesStep
      rw [h]
      rfl
  · intro m rawLine hne hnh
    have hb : ¬((trim rawLine).isEmpty = true) :=
      fun hc => hne ((String.isEmpty_iff (trim rawLine)).mp hc)
    unfold loadNamesStep
    rw [if_neg hb, hnh]
    simp only [Bool.false_eq_true, if_false]
    exact congrArg (Prod.mk "") (loadNamesStepFoldKeeps (splitComma (trim rawLine)) m)

/-- Witness for C9: a padded `" Names: "` header on a non-trivial state,
then a data line processed under the empty current species. -/
theorem spec_c9_witness :
    (trim " Names: " = "Names:" ∨ trim " Names: " = "names:") ∧
    loadNamesStep ("Hyena", [("Hyena", ["Spot"])]) " Names: "
      = ("", mapSet "" [] [("Hyena", ["Spot"])]) ∧
    (trim "Alpha, Beta" ≠ "" ∧ isHeaderLine (trim "Alpha, Beta") = false) ∧
    loadNamesStep ("", [("", [])]) "Alpha, Beta" = ("", [("", [])]) :=
  ⟨Or.inl (by decide), spec_c9.1 ("Hyena", [("Hyena", ["Spot"])]) " Names: " (Or.inl (by decide)),
   ⟨by decide, by decide⟩, spec_c9.2.1 [("", [])] "Alpha, Beta" (by decide) (by decide)⟩
